import Mathlib

/-!
Verification of the energy-report pipeline (`src/pp.py`, `src/app.py`).

The development shallowly embeds the pandas pipeline of the repository:
`process_source` (column validation, datetime parsing with coercion to
null, sorting via numpy's introsort, successive differences with
`fillna(0).round(2)`), the economics block (fuel and cost columns), the
per-source summaries with percentage-of-total, the 5-minute resample
bucketing used for charting, and the `idxmax`/`idxmin` extrema markers.

Conventions of the embedding:
* floats are modelled as exact rationals; a float column that can hold
  NaN (a missing value) is modelled as `Option ℚ` with `none` for NaN;
* timestamps are modelled as `Option ℕ` (`none` = NaT), the number being
  an absolute epoch offset in minutes;
* `.round(n)` is numpy's round-half-to-even, applied to the exact value;
* division that can produce NaN or ±inf (the percentage-of-total columns)
  lands in `PFloat`, a rational extended with the three IEEE specials.
-/

namespace Energy

/-- Round half to even applied to a rational, as numpy `round` at the
integer position: nearest integer, ties to the even one. -/
def rhe (q : ℚ) : ℤ :=
  let f := ⌊q⌋
  if q - f < 1/2 then f
  else if (1/2 : ℚ) < q - f then f + 1
  else if f % 2 = 0 then f else f + 1

/-- `Series.round(2)`: round half to even at two decimal places. -/
def round2 (q : ℚ) : ℚ := (rhe (q * 100) : ℚ) / 100

/-- `Series.round(1)`: round half to even at one decimal place. -/
def round1 (q : ℚ) : ℚ := (rhe (q * 10) : ℚ) / 10

/-- A pandas float value: a finite rational, NaN, or a signed infinity.
Used where the source divides by a possibly-zero total. -/
inductive PFloat where
  | nan : PFloat
  | inf : PFloat
  | ninf : PFloat
  | val : ℚ → PFloat
deriving DecidableEq, Repr

/-- Float division of finite values: `x / 0` is NaN when `x = 0` and a
signed infinity otherwise, as in IEEE-754 (and hence pandas). -/
def pdiv (x y : ℚ) : PFloat :=
  if y = 0 then
    if x = 0 then .nan else if 0 < x then .inf else .ninf
  else .val (x / y)

/-- Multiplication of a pandas float by a finite constant. -/
def pmulC : PFloat → ℚ → PFloat
  | .nan, _ => .nan
  | .inf, c => if 0 < c then .inf else if c < 0 then .ninf else .nan
  | .ninf, c => if 0 < c then .ninf else if c < 0 then .inf else .nan
  | .val q, c => .val (q * c)

/-- `round(1)` on a pandas float: NaN and infinities round to themselves. -/
def pround1 : PFloat → PFloat
  | .val q => .val (round1 q)
  | p => p

/-- Float subtraction `b - a` lifted to possibly-NaN operands: NaN
whenever either operand is NaN. -/
def subO : Option ℚ → Option ℚ → Option ℚ
  | some a, some b => some (b - a)
  | _, _ => none

/-- `Series.diff()` over a possibly-NaN column: first entry NaN, then the
pairwise difference, NaN whenever either operand is NaN. -/
def diffAux : Option ℚ → List (Option ℚ) → List (Option ℚ)
  | _, [] => []
  | prev, x :: xs => subO prev x :: diffAux x xs

/-- `Series.diff()` (`pp.py` line 31): the previous value before the first
entry is missing. -/
def pdDiff (vs : List (Option ℚ)) : List (Option ℚ) := diffAux none vs

/-- `df['kwh_import'].diff().fillna(0).round(2)` (`pp.py` line 31,
`app.py` line 27): the derived `KWh` column from the sorted
`kwh_import` column. -/
def kwhColumn (vs : List (Option ℚ)) : List ℚ :=
  (pdDiff vs).map (fun o => round2 (o.getD 0))

/-!
`df.sort_values('post_datetime')` sorts with pandas' default
`kind='quicksort'`, i.e. numpy's introsort (`npysort/quicksort.c.src`,
`aquicksort`), which is **not** a stable sort.  The port below is a
faithful translation of that C routine, operating on the index array
`ts` (`tosort`) with key array `v`; loops carry an explicit fuel that is
amply sufficient for the bounded loops of the original (introsort does
at most `n` partitions, each scan is bounded by the segment length, and
the heap has depth `log n`), so on every real input the fueled recursion
performs exactly the iterations the C code performs. -/

/-- `INTP_SWAP(*a, *b)`: swap two positions of the index array. -/
def swapD (ts : Array Nat) (a b : Nat) : Array Nat :=
  let x := ts.getD a 0
  let y := ts.getD b 0
  (ts.setD a y).setD b x

/-- `v[*p]`: the sort key stored at position `p` of the index array. -/
def keyAt (v : Array ℕ) (ts : Array Nat) (p : Nat) : ℕ :=
  v.getD (ts.getD p 0) 0

/-- `do ++pi; while (LT(v[*pi], vp));` -/
def scanUp (v : Array ℕ) (ts : Array Nat) (vp : ℕ) : Nat → Nat → Nat
  | 0, pi => pi
  | fuel + 1, pi =>
      let pi' := pi + 1
      if keyAt v ts pi' < vp then scanUp v ts vp fuel pi' else pi'

/-- `do --pj; while (LT(vp, v[*pj]));` -/
def scanDown (v : Array ℕ) (ts : Array Nat) (vp : ℕ) : Nat → Nat → Nat
  | 0, pj => pj
  | fuel + 1, pj =>
      let pj' := pj - 1
      if vp < keyAt v ts pj' then scanDown v ts vp fuel pj' else pj'

/-- The partition exchange loop of `aquicksort`. -/
def partLoop (v : Array ℕ) (vp : ℕ) : Nat → Array Nat → Nat → Nat → Array Nat × Nat
  | 0, ts, pi, _ => (ts, pi)
  | fuel + 1, ts, pi, pj =>
      let pi' := scanUp v ts vp (ts.size + 1) pi
      let pj' := scanDown v ts vp (ts.size + 1) pj
      if pj' ≤ pi' then (ts, pi')
      else partLoop v vp fuel (swapD ts pi' pj') pi' pj'

/-- `while (pj > pl && LT(vp, v[*pk])) { *pj-- = *pk--; }` -/
def insShift (v : Array ℕ) (vp : ℕ) (pl : Nat) : Nat → Array Nat → Nat → Array Nat × Nat
  | 0, ts, pj => (ts, pj)
  | fuel + 1, ts, pj =>
      if pl < pj ∧ vp < v.getD (ts.getD (pj - 1) 0) 0 then
        insShift v vp pl fuel (ts.setD pj (ts.getD (pj - 1) 0)) (pj - 1)
      else (ts, pj)

/-- The insertion sort of `aquicksort` on the segment `[pl, pr]`. -/
def insSortSeg (v : Array ℕ) (pl pr : Nat) : Nat → Array Nat → Nat → Array Nat
  | 0, ts, _ => ts
  | fuel + 1, ts, pi =>
      if pr < pi then ts
      else
        let vi := ts.getD pi 0
        let vp := v.getD vi 0
        let sp := insShift v vp pl (ts.size + 1) ts pi
        insSortSeg v pl pr fuel (sp.1.setD sp.2 vi) (pi + 1)

/-- One-based access `a[k]` of `aheapsort` on the segment starting at
`pl` (the C code sets `a = tosort - 1` after offsetting by `pl`). -/
def hsGet (ts : Array Nat) (pl k : Nat) : Nat := ts.getD (pl + k - 1) 0

/-- One-based update `a[k] = x` of `aheapsort`. -/
def hsSet (ts : Array Nat) (pl k : Nat) (x : Nat) : Array Nat :=
  ts.setD (pl + k - 1) x

/-- The sift-down loop shared by both phases of `aheapsort`. -/
def siftDown (v : Array ℕ) (pl tmp n : Nat) : Nat → Array Nat → Nat → Nat → Array Nat × Nat
  | 0, ts, i, _ => (ts, i)
  | fuel + 1, ts, i, j =>
      if j ≤ n then
        let j' := if j < n ∧ v.getD (hsGet ts pl j) 0 < v.getD (hsGet ts pl (j + 1)) 0
          then j + 1 else j
        if v.getD tmp 0 < v.getD (hsGet ts pl j') 0 then
          siftDown v pl tmp n fuel (hsSet ts pl i (hsGet ts pl j')) j' (j' + j')
        else (ts, i)
      else (ts, i)

/-- `for (l = n>>1; l > 0; --l)`: heap construction phase of `aheapsort`. -/
def heapPhase1 (v : Array ℕ) (pl n : Nat) : Nat → Array Nat → Nat → Array Nat
  | 0, ts, _ => ts
  | fuel + 1, ts, l =>
      if l = 0 then ts
      else
        let tmp := hsGet ts pl l
        let si := siftDown v pl tmp n (n + 2) ts l (l * 2)
        heapPhase1 v pl n fuel (hsSet si.1 pl si.2 tmp) (l - 1)

/-- `for (; n > 1;)`: extraction phase of `aheapsort`. -/
def heapPhase2 (v : Array ℕ) (pl : Nat) : Nat → Array Nat → Nat → Array Nat
  | 0, ts, _ => ts
  | fuel + 1, ts, n =>
      if n ≤ 1 then ts
      else
        let tmp := hsGet ts pl n
        let ts' := hsSet ts pl n (hsGet ts pl 1)
        let n' := n - 1
        let si := siftDown v pl tmp n' (n' + 2) ts' 1 2
        heapPhase2 v pl fuel (hsSet si.1 pl si.2 tmp) n'

/-- `aheapsort(vv, pl, pr - pl + 1)`: numpy's argsort heapsort on the
segment `[pl, pr]`, the introsort fallback at excessive depth. -/
def aheapsortSeg (v : Array ℕ) (ts : Array Nat) (pl pr : Nat) : Array Nat :=
  let n := pr + 1 - pl
  heapPhase2 v pl (n + 2) (heapPhase1 v pl n (n + 2) ts (n / 2)) n

/-- `npy_get_msb`: position of the most significant bit. -/
def npyGetMsb (n : ℕ) : ℕ := Nat.log2 n

/-- The main loop of numpy's `aquicksort`: median-of-three partitioning
with an explicit segment stack, `SMALL_QUICKSORT = 15` insertion-sort
cutoff, and heapsort fallback once `depth_limit` is exhausted. -/
def qsLoop (v : Array ℕ) : Nat → Array Nat → Nat → Nat → ℤ → List (Nat × Nat) → Array Nat
  | 0, ts, _, _, _, _ => ts
  | fuel + 1, ts, pl, pr, depth, stack =>
      if 15 < pr - pl then
        if depth < 0 then
          let ts₁ := aheapsortSeg v ts pl pr
          match stack with
          | [] => ts₁
          | (pl', pr') :: st => qsLoop v fuel ts₁ pl' pr' (depth - 1) st
        else
          let pm := pl + (pr - pl) / 2
          let t₁ := if keyAt v ts pm < keyAt v ts pl then swapD ts pm pl else ts
          let t₂ := if keyAt v t₁ pr < keyAt v t₁ pm then swapD t₁ pr pm else t₁
          let t₃ := if keyAt v t₂ pm < keyAt v t₂ pl then swapD t₂ pm pl else t₂
          let vp := keyAt v t₃ pm
          let t₄ := swapD t₃ pm (pr - 1)
          let pp := partLoop v vp (t₄.size + 1) t₄ pl (pr - 1)
          let t₅ := swapD pp.1 pp.2 (pr - 1)
          let pi := pp.2
          if pi - pl < pr - pi then
            qsLoop v fuel t₅ pl (pi - 1) (depth - 1) ((pi + 1, pr) :: stack)
          else
            qsLoop v fuel t₅ (pi + 1) pr (depth - 1) ((pl, pi - 1) :: stack)
      else
        let ts₁ := insSortSeg v pl pr (pr + 2 - pl) ts (pl + 1)
        match stack with
        | [] => ts₁
        | (pl', pr') :: st => qsLoop v fuel ts₁ pl' pr' depth st

/-- `np.argsort(v, kind='quicksort')`: run the introsort on the identity
index array. -/
def aquicksort (v : Array ℕ) (ts : Array Nat) : Array Nat :=
  qsLoop v (4 * ts.size + 16) ts 0 (ts.size - 1) (2 * (npyGetMsb ts.size : ℤ)) []

/-- `pandas.core.sorting.nargsort(values, kind='quicksort',
na_position='last')`: argsort the non-null keys with numpy's introsort
and append the indices of null keys, in original order, at the end. -/
def nargsort (keys : List (Option ℕ)) : List Nat :=
  let idxs := List.range keys.length
  let nonNanIdx := idxs.filter (fun i => (keys.getD i none).isSome)
  let nanIdx := idxs.filter (fun i => !(keys.getD i none).isSome)
  let nonNans : Array ℕ := (nonNanIdx.map (fun i => (keys.getD i none).getD 0)).toArray
  let sorted := aquicksort nonNans (Array.range nonNans.size)
  sorted.toList.map (fun p => nonNanIdx.getD p 0) ++ nanIdx

/-- One raw CSV row, after `pd.read_csv`: the two date/time strings and
the two numeric columns, each possibly NaN (missing cell). -/
structure RawRow where
  post_date : String
  post_time : String
  total_kw : Option ℚ
  kwh_import : Option ℚ
deriving DecidableEq, Repr

/-- An uploaded CSV file: its header and its rows. -/
structure RawFile where
  columns : List String
  rows : List RawRow
deriving DecidableEq, Repr

/-- Placeholder raw row for (never taken) out-of-bounds lookups. -/
def dfltRaw : RawRow := ⟨"", "", none, none⟩

/-- A row of the processed per-source dataframe returned by
`process_source`: the columns selected at `pp.py` line 34. -/
structure ProcRow where
  post_datetime : Option ℕ
  post_date : String
  post_time : String
  total_kw : Option ℚ
  kwh_import : Option ℚ
  KWh : ℚ
  source : String
deriving DecidableEq, Repr

/-- Placeholder processed row for (never taken) out-of-bounds lookups. -/
def dfltProc : ProcRow := ⟨none, "", "", none, none, 0, ""⟩

/-- Result of `process_source`: the dataframe plus whether `st.warning`
was emitted. -/
structure PSResult where
  df : List ProcRow
  warned : Bool
deriving DecidableEq, Repr

/-- `required = ['post_date', 'post_time', 'total_kw', 'kwh_import']`
(`pp.py` line 23, `app.py` line 19). -/
def required : List String := ["post_date", "post_time", "total_kw", "kwh_import"]

/-- The `post_datetime` column before sorting:
`pd.to_datetime(df['post_date'] + ' ' + df['post_time'], errors='coerce')`
(`pp.py` line 29).  `pdt` abstracts the library parser: any function
from the combined string to an optional timestamp (`none` = NaT). -/
def psKeys (pdt : String → Option ℕ) (f : RawFile) : List (Option ℕ) :=
  f.rows.map (fun r => pdt (r.post_date ++ " " ++ r.post_time))

/-- The row permutation chosen by `df.sort_values('post_datetime')`
(`pp.py` line 30): pandas `nargsort` with the default unstable
quicksort, NaT last. -/
def psIdx (pdt : String → Option ℕ) (f : RawFile) : List Nat :=
  nargsort (psKeys pdt f)

/-- The raw row at position `p` of the sorted dataframe. -/
def psSortedRow (pdt : String → Option ℕ) (f : RawFile) (p : Nat) : RawRow :=
  f.rows.getD ((psIdx pdt f).getD p 0) dfltRaw

/-- The derived `KWh` column of the sorted dataframe (`pp.py` line 31). -/
def psKwhCol (pdt : String → Option ℕ) (f : RawFile) : List ℚ :=
  kwhColumn ((psIdx pdt f).map (fun i => (f.rows.getD i dfltRaw).kwh_import))

/-- Row `p` of the processed dataframe: the columns selected at
`pp.py` line 34. -/
def psRow (pdt : String → Option ℕ) (f : RawFile) (source_name : String) (p : Nat) :
    ProcRow :=
  { post_datetime := (psKeys pdt f).getD ((psIdx pdt f).getD p 0) none
    post_date := (psSortedRow pdt f p).post_date
    post_time := (psSortedRow pdt f p).post_time
    total_kw := (psSortedRow pdt f p).total_kw
    kwh_import := (psSortedRow pdt f p).kwh_import
    KWh := (psKwhCol pdt f).getD p 0
    source := source_name }

/-- `process_source(uploaded_file, source_name)` (`pp.py` lines 20-34,
`app.py` lines 15-30).  Columns are checked; on success the datetime
column is built, rows are sorted by it with pandas' default unstable
quicksort (NaT last), and `KWh` is the rounded successive difference of
the sorted `kwh_import` column; on failure the frame is empty and a
warning is surfaced. -/
def process_source (pdt : String → Option ℕ) (f : RawFile) (source_name : String) :
    PSResult :=
  if required.all (fun c => f.columns.contains c) then
    ⟨(List.range (psIdx pdt f).length).map (psRow pdt f source_name), false⟩
  else ⟨[], true⟩

/-- One `if <file>: df = process_source(...); if not df.empty: dataframes.append(df)`
block of the upload section (`pp.py` lines 45-61). -/
def appendSource (pdt : String → Option ℕ) (acc : List (List ProcRow))
    (file? : Option RawFile) (name : String) : List (List ProcRow) :=
  match file? with
  | none => acc
  | some f =>
      let d := process_source pdt f name
      if d.df = [] then acc else acc ++ [d.df]

/-- The `dataframes` list accumulated from the three optional uploads,
in source order Utility, Gen1, Gen2. -/
def dataframes (pdt : String → Option ℕ) (utility_file gen1_file gen2_file : Option RawFile) :
    List (List ProcRow) :=
  appendSource pdt
    (appendSource pdt (appendSource pdt [] utility_file "Utility") gen1_file "Gen1")
    gen2_file "Gen2"

/-- `pd.concat(dataframes, ignore_index=True)` (`pp.py` line 64). -/
def combined_df (dfs : List (List ProcRow)) : List ProcRow := dfs.flatten

/-- A combined row extended with the two derived economic columns. -/
structure EconRow extends ProcRow where
  expected_fuel_liters : ℚ
  cost_ngn : ℚ
deriving DecidableEq, Repr

/-- `GEN_EFFICIENCY_KWH_PER_L = 3.3` (`pp.py` line 17). -/
def GEN_EFFICIENCY_KWH_PER_L : ℚ := 33 / 10

/-- `TARIFF_UTILITY = 209.50` (`pp.py` line 76). -/
def TARIFF_UTILITY : ℚ := 419 / 2

/-- `TARIFF_GEN = 1000` (`pp.py` line 77). -/
def TARIFF_GEN : ℚ := 1000

/-- Column initialisations `combined_df['expected_fuel_liters'] = 0.0`
and `combined_df['cost_ngn'] = 0.0` (`pp.py` lines 67, 80). -/
def initEcon (r : ProcRow) : EconRow :=
  { toProcRow := r, expected_fuel_liters := 0, cost_ngn := 0 }

/-- One masked assignment of the generator fuel loop (`pp.py` lines 68-72). -/
def fuelAssign (g : String) (r : EconRow) : EconRow :=
  if r.source = g then
    { r with expected_fuel_liters := round2 (r.KWh / GEN_EFFICIENCY_KWH_PER_L) }
  else r

/-- The Utility cost assignment (`pp.py` lines 83-85). -/
def costUtilAssign (r : EconRow) : EconRow :=
  if r.source = "Utility" then { r with cost_ngn := r.KWh * TARIFF_UTILITY } else r

/-- One masked assignment of the generator cost loop (`pp.py` lines 88-92). -/
def costGenAssign (g : String) (r : EconRow) : EconRow :=
  if r.source = g then { r with cost_ngn := r.expected_fuel_liters * TARIFF_GEN } else r

/-- `combined_df['cost_ngn'] = combined_df['cost_ngn'].round(2)`
(`pp.py` line 94). -/
def costRound (r : EconRow) : EconRow := { r with cost_ngn := round2 r.cost_ngn }

/-- The whole economics block (`pp.py` lines 67-94) as the sequence of
column-wide masked assignments the source performs, in source order. -/
def econBlock (l : List ProcRow) : List EconRow :=
  ((((((l.map initEcon).map (fuelAssign "Gen1")).map (fuelAssign "Gen2")).map
      costUtilAssign).map (costGenAssign "Gen1")).map (costGenAssign "Gen2")).map costRound

/-- The spec's description of the fuel column as a per-record function of
`(source, kwh)`: `kwh / 3.3` rounded to 2 decimals for generator sources,
`0` otherwise.  Stated from the spec's words, to be compared with
`econBlock` in the refinement theorem for C3. -/
def specFuel (source : String) (kwh : ℚ) : ℚ :=
  if source = "Gen1" ∨ source = "Gen2" then round2 (kwh / GEN_EFFICIENCY_KWH_PER_L) else 0

/-- The spec's description of the cost column as a per-record function of
`(source, kwh)`: `kwh * 209.50` for Utility, `expected_fuel_liters * 1000`
for generator sources, all rounded to 2 decimals. -/
def specCost (source : String) (kwh : ℚ) : ℚ :=
  round2 (if source = "Utility" then kwh * TARIFF_UTILITY
    else if source = "Gen1" ∨ source = "Gen2" then specFuel source kwh * TARIFF_GEN
    else 0)

/-- `combined_df.groupby('source')` keys: the distinct source tags in
sorted order (pandas `groupby` sorts its keys by default). -/
def sourceKeys (l : List EconRow) : List String :=
  ((l.map (fun r => r.source)).dedup).insertionSort (· ≤ ·)

/-- Per-source sum of `KWh` (`pp.py` line 103). -/
def sumKwhFor (l : List EconRow) (s : String) : ℚ :=
  ((l.filter (fun r => r.source == s)).map (fun r => r.KWh)).sum

/-- `summary = combined_df.groupby('source')['KWh'].sum(); summary['KWh'].round(2)`
(`pp.py` lines 103-104). -/
def summary (l : List EconRow) : List (String × ℚ) :=
  (sourceKeys l).map (fun s => (s, round2 (sumKwhFor l s)))

/-- `total_kwh = summary['KWh'].sum()` (`pp.py` line 105). -/
def total_kwh (l : List EconRow) : ℚ := ((summary l).map (fun p => p.2)).sum

/-- `(summary['KWh'] / total_kwh * 100).round(1)` (`pp.py` line 106): the
percentage-of-total column, a pandas float (NaN or ±inf when the total
is zero). -/
def kwhPctCol (l : List EconRow) : List PFloat :=
  (summary l).map (fun p => pround1 (pmulC (pdiv p.2 (total_kwh l)) 100))

/-- Per-source sum of `cost_ngn` (`pp.py` lines 134-137).  The
`sort_values('cost_ngn', ascending=False)` of the source only reorders
the displayed rows and is omitted; the set of per-source sums and
percentages is unaffected. -/
def sumCostFor (l : List EconRow) (s : String) : ℚ :=
  ((l.filter (fun r => r.source == s)).map (fun r => r.cost_ngn)).sum

/-- `cost_summary = combined_df.groupby('source')['cost_ngn'].sum()`
(`pp.py` lines 134-139). -/
def cost_summary (l : List EconRow) : List (String × ℚ) :=
  (sourceKeys l).map (fun s => (s, sumCostFor l s))

/-- `total_cost = cost_summary['cost_ngn'].sum()` (`pp.py` line 141). -/
def total_cost (l : List EconRow) : ℚ := ((cost_summary l).map (fun p => p.2)).sum

/-- `(cost_summary['cost_ngn'] / total_cost * 100).round(1)` (`pp.py`
line 142). -/
def costPctCol (l : List EconRow) : List PFloat :=
  (cost_summary l).map (fun p => pround1 (pmulC (pdiv p.2 (total_cost l)) 100))

/-- `resample('5T')` bucket key: the timestamp floored to the next lower
multiple of the bucket width (absolute time; `5T` divides a day, so
pandas' day-anchored bins coincide with absolute flooring). -/
def bucket_start (w t : ℕ) : ℕ := w * (t / w)

/-- Minimum of a list of timestamps, `none` for the empty list. -/
def minFold (l : List ℕ) : Option ℕ :=
  l.foldl (fun o t => some (min (o.getD t) t)) none

/-- Earliest timestamp of a record list (its default is irrelevant: the
function is only used under a nonemptiness guard). -/
def tmin (recs : List (ℕ × ℚ)) : ℕ := (minFold (recs.map (fun r => r.1))).getD 0

/-- Latest timestamp of a record list. -/
def tmax (recs : List (ℕ × ℚ)) : ℕ := (recs.map (fun r => r.1)).foldl max 0

/-- Sum of the values of all records falling in the bucket at `t`. -/
def bucketSum (w : ℕ) (recs : List (ℕ × ℚ)) (t : ℕ) : ℚ :=
  ((recs.filter (fun r => bucket_start w r.1 == t)).map (fun r => r.2)).sum

/-- `.resample(w).sum()` for one source: one bucket per width-`w` step
from the floored earliest to the floored latest timestamp (pandas emits
empty gap buckets with sum 0), each holding the sum of the values whose
floored timestamp equals the bucket start. -/
def resampleSum (w : ℕ) (recs : List (ℕ × ℚ)) : List (ℕ × ℚ) :=
  if recs = [] then []
  else
    let s0 := bucket_start w (tmin recs)
    let s1 := bucket_start w (tmax recs)
    let n := (s1 - s0) / w + 1
    (List.range n).map (fun i => (s0 + w * i, bucketSum w recs (s0 + w * i)))

/-- `chart_data` for one source (`pp.py` lines 157-164):
`combined_df.set_index('post_datetime').groupby('source')['KWh'].resample('5T').sum()`.
Rows with a NaT index are dropped by the `set_index`/`resample`
combination before bucketing. -/
def chart_data (w : ℕ) (l : List EconRow) (s : String) : List (ℕ × ℚ) :=
  resampleSum w
    (((l.filter (fun r => r.source == s)).filter (fun r => r.post_datetime.isSome)).map
      (fun r => (r.post_datetime.getD 0, r.KWh)))

/-- Accumulator loop of `Series.idxmax`: keep the current best index,
replace it only on a strictly greater value. -/
def idxmaxGo : List ℚ → ℕ → ℚ → ℕ → ℕ
  | [], bi, _, _ => bi
  | x :: t, bi, bv, i => if bv < x then idxmaxGo t i x (i + 1) else idxmaxGo t bi bv (i + 1)

/-- `Series.idxmax()`: position of the first occurrence of the maximum. -/
def idxmax : List ℚ → ℕ
  | [] => 0
  | x :: t => idxmaxGo t 0 x 1

/-- Accumulator loop of `Series.idxmin`. -/
def idxminGo : List ℚ → ℕ → ℚ → ℕ → ℕ
  | [], bi, _, _ => bi
  | x :: t, bi, bv, i => if x < bv then idxminGo t i x (i + 1) else idxminGo t bi bv (i + 1)

/-- `Series.idxmin()`: position of the first occurrence of the minimum. -/
def idxmin : List ℚ → ℕ
  | [] => 0
  | x :: t => idxminGo t 0 x 1

/-- `max_row = source_data.loc[source_data['KWh'].idxmax()]`
(`pp.py` line 179). -/
def max_row (l : List (ℕ × ℚ)) : ℕ × ℚ := l.getD (idxmax (l.map (fun r => r.2))) (0, 0)

/-- `min_row = source_data.loc[source_data['KWh'].idxmin()]`
(`pp.py` line 180). -/
def min_row (l : List (ℕ × ℚ)) : ℕ × ℚ := l.getD (idxmin (l.map (fun r => r.2))) (0, 0)

/-- A concrete stand-in for `pd.to_datetime(..., errors='coerce')` used
by the closed witness instances: it parses the two timestamp strings the
concrete files use (minutes from midnight) and coerces everything else
to NaT. -/
def pdtEx : String → Option ℕ := fun s =>
  if s = "2024-01-01 00:00" then some 0
  else if s = "2024-01-01 00:07" then some 7
  else none

/-- A one-row Utility file: its single record derives `KWh = 0`, so the
grand totals are 0. -/
def file_one_row : RawFile :=
  ⟨required, [⟨"2024-01-01", "00:00", some 5, some 10⟩]⟩

/-- A file whose header lacks `total_kw`. -/
def file_missing_total_kw : RawFile :=
  ⟨["post_date", "post_time", "kwh_import"], [⟨"2024-01-01", "00:00", none, some 10⟩]⟩

/-- Seventeen rows sharing one timestamp, distinguished by their
`kwh_import` value `0, 1, ..., 16`: the smallest shape on which numpy's
quicksort leaves the insertion-sort regime and reorders equal keys. -/
def file_equal_timestamps : RawFile :=
  ⟨required, (List.range 17).map (fun j => ⟨"2024-01-01", "00:00", some 1, some (j : ℚ)⟩)⟩

/-- Three rows of which the middle one has an unparseable date-time. -/
def file_bad_row : RawFile :=
  ⟨required,
   [⟨"2024-01-01", "00:07", some 1, some 10⟩,
    ⟨"not-a-date", "xx", some 2, some 11⟩,
    ⟨"2024-01-01", "00:00", some 3, some 9⟩]⟩

/-! ### Helper lemmas -/

theorem round2_zero : round2 0 = 0 := by with_unfolding_all rfl

theorem rhe_neg_of_lt_neg_half (x : ℚ) (hx : x < -(1/2)) : rhe x < 0 := by
  have hfl : (⌊x⌋ : ℚ) ≤ x := Int.floor_le x
  have hneg : ⌊x⌋ < 0 := by
    have h0 : (⌊x⌋ : ℚ) < 0 := lt_of_le_of_lt hfl (by linarith)
    exact_mod_cast h0
  simp only [rhe]
  split_ifs with h1 h2 h3
  · exact hneg
  · have hq : (⌊x⌋ : ℚ) < -1 := by linarith
    have hz : ⌊x⌋ < -1 := by exact_mod_cast hq
    omega
  · exact hneg
  · have heq : x - ⌊x⌋ = 1/2 := le_antisymm (not_lt.mp h2) (not_lt.mp h1)
    have hq : (⌊x⌋ : ℚ) < -1 := by linarith
    have hz : ⌊x⌋ < -1 := by exact_mod_cast hq
    omega

theorem round2_neg_of_lt (d : ℚ) (hd : d < -(1/200)) : round2 d < 0 := by
  have h : d * 100 < -(1/2) := by linarith
  have hz := rhe_neg_of_lt_neg_half (d * 100) h
  have hc : ((rhe (d * 100) : ℤ) : ℚ) < 0 := by exact_mod_cast hz
  unfold round2
  exact div_neg_of_neg_of_pos hc (by norm_num)

theorem round2_le_of_neg (d : ℚ) (h : round2 d < 0) : round2 d ≤ -(1/100) := by
  unfold round2 at h ⊢
  have hn : ((rhe (d * 100) : ℤ) : ℚ) < 0 := by
    by_contra hge
    push_neg at hge
    have h0 : (0:ℚ) ≤ (rhe (d * 100) : ℚ) / 100 := div_nonneg hge (by norm_num)
    linarith
  have hz : rhe (d * 100) < 0 := by exact_mod_cast hn
  have hz1 : rhe (d * 100) ≤ -1 := by omega
  have hq : ((rhe (d * 100) : ℤ) : ℚ) ≤ -1 := by exact_mod_cast hz1
  calc (rhe (d * 100) : ℚ) / 100 ≤ (-1 : ℚ) / 100 := by
        exact (div_le_div_iff_of_pos_right (by norm_num : (0:ℚ) < 100)).mpr hq
    _ = -(1/100) := by norm_num

theorem subO_none_left (x : Option ℚ) : subO none x = none := by cases x <;> rfl

theorem subO_none_right (x : Option ℚ) : subO x none = none := by cases x <;> rfl

theorem subO_some_some (a b : ℚ) : subO (some a) (some b) = some (b - a) := rfl

theorem getD_map_lt {α β : Type} (f : α → β) (l : List α) (i : ℕ) (hi : i < l.length)
    (d : β) (d' : α) : (l.map f).getD i d = f (l.getD i d') := by
  rw [List.getD_eq_getElem?_getD, List.getD_eq_getElem?_getD, List.getElem?_map,
    List.getElem?_eq_getElem hi]
  rfl

theorem getD_range_lt (n i : ℕ) (hi : i < n) (d : ℕ) : (List.range n).getD i d = i := by
  rw [List.getD_eq_getElem?_getD, List.getElem?_eq_getElem (by simpa using hi)]
  simp

theorem diffAux_length (prev : Option ℚ) (vs : List (Option ℚ)) :
    (diffAux prev vs).length = vs.length := by
  induction vs generalizing prev with
  | nil => rfl
  | cons x t ih => simp [diffAux, ih]

theorem kwhColumn_length (vs : List (Option ℚ)) : (kwhColumn vs).length = vs.length := by
  simp [kwhColumn, pdDiff, diffAux_length]

theorem diffAux_getD (vs : List (Option ℚ)) : ∀ (prev : Option ℚ) (i : ℕ), i < vs.length →
    (diffAux prev vs).getD i none =
      subO (if i = 0 then prev else vs.getD (i - 1) none) (vs.getD i none) := by
  induction vs with
  | nil => intro _ i hi; simp at hi
  | cons x t ih =>
    intro prev i hi
    cases i with
    | zero => rfl
    | succ i =>
      have hi' : i < t.length := by simpa using hi
      simp only [diffAux, List.getD_cons_succ]
      rw [ih x i hi']
      cases i with
      | zero => rfl
      | succ j => rfl

theorem kwhColumn_getD (vs : List (Option ℚ)) (i : ℕ) (hi : i < vs.length) :
    (kwhColumn vs).getD i 0 =
      round2 ((subO (if i = 0 then none else vs.getD (i - 1) none) (vs.getD i none)).getD 0) := by
  have hlen : i < (pdDiff vs).length := by
    simpa [pdDiff, diffAux_length] using hi
  rw [kwhColumn, getD_map_lt _ _ i hlen 0 none, pdDiff, diffAux_getD vs none i hi]

/-! ### C1: delta correctness of the derived KWh column -/

/-- C1: over a source series whose `kwh_import` values are all present,
the derived `KWh` of the first record is `0`, every subsequent record's
`KWh` is the difference of consecutive cumulative values rounded to two
decimals after the subtraction, and in particular the cumulative
sequence `[10.0, 12.5, 12.5, 20.0]` yields `KWh = [0, 2.5, 0, 7.5]`. -/
theorem claim1_delta_kwh (vs : List ℚ) :
    (vs ≠ [] → (kwhColumn (vs.map some)).getD 0 0 = 0) ∧
    (∀ i, 0 < i → i < vs.length →
      (kwhColumn (vs.map some)).getD i 0 = round2 (vs.getD i 0 - vs.getD (i - 1) 0)) ∧
    kwhColumn ([10, 25/2, 25/2, 20].map some) = [0, 5/2, 0, 15/2] := by
  refine ⟨?_, ?_, of_decide_eq_true (by with_unfolding_all rfl)⟩
  · intro hne
    have hl : 0 < (vs.map some).length := by
      simpa [List.length_pos] using hne
    rw [kwhColumn_getD _ 0 hl]
    simp [subO_none_left, round2_zero]
  · intro i hpos hi
    have hi' : i < (vs.map some).length := by simpa using hi
    rw [kwhColumn_getD _ i hi']
    have h1 : (vs.map some).getD i none = some (vs.getD i 0) :=
      getD_map_lt some vs i hi none 0
    have h2 : (vs.map some).getD (i - 1) none = some (vs.getD (i - 1) 0) :=
      getD_map_lt some vs (i - 1) (lt_of_le_of_lt (Nat.pred_le i) hi) none 0
    rw [if_neg (Nat.pos_iff_ne_zero.mp hpos), h1, h2, subO_some_some]
    rfl

theorem claim1_delta_kwh_witness :
    (kwhColumn ([10, 25/2, 25/2, 20].map some)).getD 0 0 = 0 ∧
    (kwhColumn ([10, 25/2, 25/2, 20].map some)).getD 1 0 = round2 (25/2 - 10) := by
  refine ⟨(claim1_delta_kwh [10, 25/2, 25/2, 20]).1 (by simp), ?_⟩
  have h := (claim1_delta_kwh [10, 25/2, 25/2, 20]).2.1 1 (by norm_num) (by simp)
  simpa using h

/-! ### C10: a missing `kwh_import` zeroes the KWh of rows `i` and `i+1` -/

/-- C10: in a sorted series whose `kwh_import` is missing (NaN) at
position `i`, both successive differences touching position `i` are NaN,
so `fillna(0)` makes the derived `KWh` equal to `0` at position `i` and
at position `i + 1`; no error and no missing value is propagated. -/
theorem claim10_missing_import (vs : List (Option ℚ)) (i : ℕ) (hi : i < vs.length)
    (hnone : vs.getD i none = none) :
    (kwhColumn vs).getD i 0 = 0 ∧
    (i + 1 < vs.length → (kwhColumn vs).getD (i + 1) 0 = 0) := by
  constructor
  · rw [kwhColumn_getD vs i hi, hnone, subO_none_right]
    simpa using round2_zero
  · intro hi1
    rw [kwhColumn_getD vs (i + 1) hi1]
    have hstep : i + 1 - 1 = i := rfl
    rw [if_neg (Nat.succ_ne_zero i), hstep, hnone, subO_none_left]
    simpa using round2_zero

theorem claim10_missing_import_witness :
    (kwhColumn [some 10, none, some 13]).getD 1 0 = 0 ∧
    (kwhColumn [some 10, none, some 13]).getD 2 0 = 0 :=
  ⟨(claim10_missing_import [some 10, none, some 13] 1 (by simp) rfl).1,
   (claim10_missing_import [some 10, none, some 13] 1 (by simp) rfl).2 (by simp)⟩

/-! ### C3: the economics block is a per-record function of (source, kwh) -/

theorem econStages_char (r : ProcRow) :
    (costRound (costGenAssign "Gen2" (costGenAssign "Gen1"
        (costUtilAssign (fuelAssign "Gen2" (fuelAssign "Gen1" (initEcon r))))))).expected_fuel_liters
      = specFuel r.source r.KWh ∧
    (costRound (costGenAssign "Gen2" (costGenAssign "Gen1"
        (costUtilAssign (fuelAssign "Gen2" (fuelAssign "Gen1" (initEcon r))))))).cost_ngn
      = specCost r.source r.KWh := by
  by_cases h1 : r.source = "Gen1"
  · simp [initEcon, fuelAssign, costUtilAssign, costGenAssign, costRound, specFuel, specCost, h1]
  · by_cases h2 : r.source = "Gen2"
    · simp [initEcon, fuelAssign, costUtilAssign, costGenAssign, costRound, specFuel, specCost,
        h2]
    · by_cases h3 : r.source = "Utility"
      · simp [initEcon, fuelAssign, costUtilAssign, costGenAssign, costRound, specFuel, specCost,
          h3]
      · simp [initEcon, fuelAssign, costUtilAssign, costGenAssign, costRound, specFuel, specCost,
          h1, h2, h3]

set_option maxRecDepth 40000 in
/-- C3: the economics block computes, for every combined record, a
deterministic per-record function of `(source, kwh)`: generator sources
get `expected_fuel_liters = round2(kwh / 3.3)` and
`cost = round2(expected_fuel_liters * 1000)`, Utility gets fuel `0` and
`cost = round2(kwh * 209.50)`; in particular `(Gen1, 6.6)` gives fuel
`2.00` and cost `2000.00`, and `(Utility, 10)` gives cost `2095.00` and
fuel `0`. -/
theorem claim3_economics_dispatch :
    (∀ l : List ProcRow,
      (econBlock l).map (fun e => (e.expected_fuel_liters, e.cost_ngn)) =
        l.map (fun r => (specFuel r.source r.KWh, specCost r.source r.KWh))) ∧
    specFuel "Gen1" (33/5) = 2 ∧ specCost "Gen1" (33/5) = 2000 ∧
    specFuel "Utility" 10 = 0 ∧ specCost "Utility" 10 = 2095 := by
  refine ⟨?_, of_decide_eq_true (by with_unfolding_all rfl),
    of_decide_eq_true (by with_unfolding_all rfl),
    of_decide_eq_true (by with_unfolding_all rfl),
    of_decide_eq_true (by with_unfolding_all rfl)⟩
  intro l
  unfold econBlock
  simp only [List.map_map]
  apply List.map_congr_left
  intro r _
  simp only [Function.comp_apply]
  rw [(econStages_char r).1, (econStages_char r).2]

/-! ### C4: a missing required column isolates the offending source -/

theorem appendSource_of_empty (pdt : String → Option ℕ) (acc : List (List ProcRow))
    (f : RawFile) (name : String) (h : (process_source pdt f name).df = []) :
    appendSource pdt acc (some f) name = acc := by
  show (if (process_source pdt f name).df = [] then acc
        else acc ++ [(process_source pdt f name).df]) = acc
  rw [h, if_pos rfl]

/-- C4: if any required column is absent, `process_source` returns an
empty dataframe and surfaces a warning, and the `dataframes` list built
from the three uploads is the same as if the rejected file had not been
supplied at all — the other sources' processing is unchanged. -/
theorem claim4_missing_column (pdt : String → Option ℕ) (f : RawFile) (name : String)
    (h : ∃ c ∈ required, f.columns.contains c = false) :
    (process_source pdt f name).df = [] ∧
    (process_source pdt f name).warned = true ∧
    (∀ g1 g2, dataframes pdt (some f) g1 g2 = dataframes pdt none g1 g2) ∧
    (∀ u g2, dataframes pdt u (some f) g2 = dataframes pdt u none g2) ∧
    (∀ u g1, dataframes pdt u g1 (some f) = dataframes pdt u g1 none) := by
  have hall : required.all (fun c => f.columns.contains c) = false := by
    rcases h with ⟨c, hc, hcf⟩
    cases hb : required.all (fun c => f.columns.contains c)
    · rfl
    · rw [List.all_eq_true] at hb
      have := hb c hc
      rw [hcf] at this
      exact absurd this (by simp)
  have hps : ∀ n, process_source pdt f n = ⟨[], true⟩ := by
    intro n
    unfold process_source
    rw [hall]
    simp
  have hdf : ∀ n, (process_source pdt f n).df = [] := fun n => by rw [hps n]
  refine ⟨hdf name, by rw [hps name], ?_, ?_, ?_⟩
  · intro g1 g2
    unfold dataframes
    rw [appendSource_of_empty pdt [] f "Utility" (hdf "Utility")]
    rfl
  · intro u g2
    unfold dataframes
    rw [appendSource_of_empty pdt (appendSource pdt [] u "Utility") f "Gen1" (hdf "Gen1")]
    rfl
  · intro u g1
    unfold dataframes
    rw [appendSource_of_empty pdt
      (appendSource pdt (appendSource pdt [] u "Utility") g1 "Gen1") f "Gen2" (hdf "Gen2")]
    rfl

theorem claim4_missing_column_witness :
    (process_source pdtEx file_missing_total_kw "Gen1").df = [] ∧
    (process_source pdtEx file_missing_total_kw "Gen1").warned = true ∧
    dataframes pdtEx (some file_one_row) (some file_missing_total_kw) none =
      dataframes pdtEx (some file_one_row) none none := by
  have h := claim4_missing_column pdtEx file_missing_total_kw "Gen1"
    ⟨"total_kw", by decide, by decide⟩
  exact ⟨h.1, h.2.1, h.2.2.2.1 (some file_one_row) none⟩

/-! ### C5: negative deltas are not clamped, but rounding can hide them -/

/-- C5 counterexample: the cumulative series `[10, 9.999]` decreases at
the second record, yet the derived `KWh` there is `0` (the decrease of
`0.001` rounds away), not negative; likewise a negative `kwh = -0.01`
on `Gen1` yields fuel `0` and cost `0`, not negative values.  The claim
as stated (every counter decrease yields a negative `kwh`, and a
negative `kwh` propagates to negative fuel and cost) is therefore
false. -/
theorem claim5_negative_counterexample :
    (9999/1000 : ℚ) < 10 ∧
    kwhColumn ([10, 9999/1000].map some) = [0, 0] ∧
    ¬ (kwhColumn ([10, 9999/1000].map some)).getD 1 0 < 0 ∧
    specFuel "Gen1" (-1/100) = 0 ∧ ¬ specFuel "Gen1" (-1/100) < 0 ∧
    specCost "Gen1" (-1/100) = 0 ∧ ¬ specCost "Gen1" (-1/100) < 0 :=
  of_decide_eq_true (by with_unfolding_all rfl)

/-- C5 amended: the derived `kwh` is exactly `round2` of the raw
difference — no clamping is applied at any stage — so a counter decrease
strictly greater than `0.005` yields a negative `kwh`, and a negative
`kwh` below `-0.0165` (in particular any negative `kwh ≤ -0.02`)
propagates to a negative `expected_fuel_liters` and a negative cost for
the generator sources; decreases within the rounding granularity round
to `0` instead. -/
theorem claim5_negative_amended (a b : ℚ) (hdec : b - a < -(1/200)) (k : ℚ)
    (hk : k < -(33/2000)) :
    kwhColumn ([a, b].map some) = [0, round2 (b - a)] ∧
    round2 (b - a) < 0 ∧
    specFuel "Gen1" k < 0 ∧ specCost "Gen1" k < 0 ∧
    specFuel "Gen2" k < 0 ∧ specCost "Gen2" k < 0 := by
  have hneg := round2_neg_of_lt (b - a) hdec
  have hfuel : round2 (k / GEN_EFFICIENCY_KWH_PER_L) < 0 := by
    apply round2_neg_of_lt
    rw [div_lt_iff₀ (by norm_num [GEN_EFFICIENCY_KWH_PER_L])]
    unfold GEN_EFFICIENCY_KWH_PER_L
    linarith
  have hfle := round2_le_of_neg _ hfuel
  have hcost : round2 (round2 (k / GEN_EFFICIENCY_KWH_PER_L) * TARIFF_GEN) < 0 := by
    apply round2_neg_of_lt
    unfold TARIFF_GEN
    nlinarith
  refine ⟨?_, hneg, ?_, ?_, ?_, ?_⟩
  · simp [kwhColumn, pdDiff, diffAux, subO_none_left, subO_some_some, round2_zero]
  · unfold specFuel
    rw [if_pos (Or.inl rfl)]
    exact hfuel
  · unfold specCost
    rw [if_neg (by decide), if_pos (Or.inl rfl)]
    unfold specFuel
    rw [if_pos (Or.inl rfl)]
    exact hcost
  · unfold specFuel
    rw [if_pos (Or.inr rfl)]
    exact hfuel
  · unfold specCost
    rw [if_neg (by decide), if_pos (Or.inr rfl)]
    unfold specFuel
    rw [if_pos (Or.inr rfl)]
    exact hcost

theorem claim5_negative_amended_witness :
    kwhColumn ([10, 49/5].map some) = [0, round2 (49/5 - 10)] ∧
    round2 ((49/5 : ℚ) - 10) < 0 ∧
    specFuel "Gen1" (-1/10) < 0 ∧ specCost "Gen1" (-1/10) < 0 ∧
    specFuel "Gen2" (-1/10) < 0 ∧ specCost "Gen2" (-1/10) < 0 :=
  claim5_negative_amended 10 (49/5) (of_decide_eq_true (by with_unfolding_all rfl))
    (-1/10) (of_decide_eq_true (by with_unfolding_all rfl))

/-! ### C2: percentages at a zero grand total are NaN/inf, not 0% -/

set_option maxRecDepth 40000 in
/-- C2 counterexample: a run consisting of one Utility file with a single
row has grand totals `0` for both `KWh` and cost, and the
percentage-of-total entries the source computes are NaN (displayed
`nan%`), not the value `0` (`0.0%`); the claim that a zero total is
reported as 0% is therefore false on the code. -/
theorem claim2_zero_total_counterexample :
    total_kwh (econBlock (combined_df (dataframes pdtEx (some file_one_row) none none))) = 0 ∧
    total_cost (econBlock (combined_df (dataframes pdtEx (some file_one_row) none none))) = 0 ∧
    kwhPctCol (econBlock (combined_df (dataframes pdtEx (some file_one_row) none none)))
      = [PFloat.nan] ∧
    costPctCol (econBlock (combined_df (dataframes pdtEx (some file_one_row) none none)))
      = [PFloat.nan] ∧
    PFloat.nan ≠ PFloat.val 0 :=
  of_decide_eq_true (by with_unfolding_all rfl)

theorem pct_of_zero_total (x : ℚ) :
    pround1 (pmulC (pdiv x 0) 100) = PFloat.nan ∨
    pround1 (pmulC (pdiv x 0) 100) = PFloat.inf ∨
    pround1 (pmulC (pdiv x 0) 100) = PFloat.ninf := by
  unfold pdiv
  rw [if_pos rfl]
  by_cases h0 : x = 0
  · rw [if_pos h0]; left; rfl
  · rw [if_neg h0]
    by_cases hpos : 0 < x
    · rw [if_pos hpos]
      right; left
      simp only [pmulC]
      rw [if_pos (by norm_num : (0:ℚ) < 100)]
      rfl
    · rw [if_neg hpos]
      right; right
      simp only [pmulC]
      rw [if_pos (by norm_num : (0:ℚ) < 100)]
      rfl

/-- C2 amended: when the grand total of `KWh` (resp. cost) over all
present sources is zero, every per-source percentage-of-total entry is
the float division's NaN or ±inf placeholder — never the numeric `0`
(`0%`) — and the computation is total: it degrades to those placeholder
values instead of raising. -/
theorem claim2_zero_total_amended (l : List EconRow) :
    (total_kwh l = 0 → ∀ p ∈ kwhPctCol l,
      (p = PFloat.nan ∨ p = PFloat.inf ∨ p = PFloat.ninf) ∧ p ≠ PFloat.val 0) ∧
    (total_cost l = 0 → ∀ p ∈ costPctCol l,
      (p = PFloat.nan ∨ p = PFloat.inf ∨ p = PFloat.ninf) ∧ p ≠ PFloat.val 0) := by
  constructor
  · intro h p hp
    unfold kwhPctCol at hp
    rw [h] at hp
    rcases List.mem_map.mp hp with ⟨q, _, rfl⟩
    refine ⟨pct_of_zero_total q.2, ?_⟩
    rcases pct_of_zero_total q.2 with h1 | h1 | h1 <;> rw [h1] <;> simp
  · intro h p hp
    unfold costPctCol at hp
    rw [h] at hp
    rcases List.mem_map.mp hp with ⟨q, _, rfl⟩
    refine ⟨pct_of_zero_total q.2, ?_⟩
    rcases pct_of_zero_total q.2 with h1 | h1 | h1 <;> rw [h1] <;> simp

set_option maxRecDepth 40000 in
theorem claim2_zero_total_amended_witness :
    ∀ p ∈ kwhPctCol (econBlock (combined_df (dataframes pdtEx (some file_one_row) none none))),
      (p = PFloat.nan ∨ p = PFloat.inf ∨ p = PFloat.ninf) ∧ p ≠ PFloat.val 0 :=
  (claim2_zero_total_amended
      (econBlock (combined_df (dataframes pdtEx (some file_one_row) none none)))).1
    (of_decide_eq_true (by with_unfolding_all rfl))

/-! ### C7: the sort is not stable on the original row order -/

set_option maxRecDepth 100000 in
/-- C7 (code bug evidence): on seventeen rows that share one timestamp
and are distinguished by `kwh_import = 0, 1, ..., 16`, the sorted
dataframe produced by `process_source` (pandas' default
`kind='quicksort'`, numpy's introsort) carries the rows in the order
`0, 14, 13, 12, 11, 10, 9, 15, 8, 6, 5, 4, 3, 2, 1, 7, 16` — not the
original row order the claim's stable-sort tiebreak requires — although
every timestamp is equal. -/
theorem claim7_unstable_sort :
    (process_source pdtEx file_equal_timestamps "Utility").df.map (fun r => r.kwh_import) =
      [some 0, some 14, some 13, some 12, some 11, some 10, some 9, some 15, some 8,
       some 6, some 5, some 4, some 3, some 2, some 1, some 7, some 16] ∧
    (process_source pdtEx file_equal_timestamps "Utility").df.map (fun r => r.kwh_import) ≠
      (List.range 17).map (fun j => some (j : ℚ)) ∧
    (∀ r ∈ (process_source pdtEx file_equal_timestamps "Utility").df,
      r.post_datetime = some 0) :=
  of_decide_eq_true (by with_unfolding_all rfl)

/-! ### C9: rows with unparseable timestamps are retained but not bucketed -/

theorem process_source_df_of_cols (pdt : String → Option ℕ) (f : RawFile) (name : String)
    (h : required.all (fun c => f.columns.contains c) = true) :
    (process_source pdt f name).df = (List.range (psIdx pdt f).length).map (psRow pdt f name) := by
  unfold process_source
  rw [h]
  rfl

/-- C9: if the date-time combination of row `i` fails to parse, the
processed series still contains a row carrying row `i`'s fields with a
null timestamp (it is retained through sorting and hence through any
combined preview/export list it is concatenated into), while the
time-bucketed chart aggregation is insensitive to null-timestamp rows:
it equals the aggregation of the null-free sublist. -/
theorem claim9_null_retained (pdt : String → Option ℕ) (f : RawFile) (name : String)
    (hcols : required.all (fun c => f.columns.contains c) = true)
    (i : ℕ) (hi : i < f.rows.length)
    (hfail : pdt ((f.rows.getD i dfltRaw).post_date ++ " " ++
      (f.rows.getD i dfltRaw).post_time) = none) :
    (∃ p, p < (process_source pdt f name).df.length ∧
      ((process_source pdt f name).df.getD p dfltProc).post_datetime = none ∧
      ((process_source pdt f name).df.getD p dfltProc).post_date =
        (f.rows.getD i dfltRaw).post_date ∧
      ((process_source pdt f name).df.getD p dfltProc).post_time =
        (f.rows.getD i dfltRaw).post_time ∧
      ((process_source pdt f name).df.getD p dfltProc).total_kw =
        (f.rows.getD i dfltRaw).total_kw ∧
      ((process_source pdt f name).df.getD p dfltProc).kwh_import =
        (f.rows.getD i dfltRaw).kwh_import ∧
      ((process_source pdt f name).df.getD p dfltProc) ∈ (process_source pdt f name).df ∧
      ∀ pre post : List ProcRow,
        ((process_source pdt f name).df.getD p dfltProc) ∈
          pre ++ (process_source pdt f name).df ++ post) ∧
    (∀ w (l : List EconRow) s,
      chart_data w l s = chart_data w (l.filter (fun r => r.post_datetime.isSome)) s) := by
  constructor
  · have hklen : (psKeys pdt f).length = f.rows.length := by simp [psKeys]
    have hknone : (psKeys pdt f).getD i none = none := by
      unfold psKeys
      rw [getD_map_lt _ _ i hi none dfltRaw]
      exact hfail
    have hmem : i ∈ psIdx pdt f := by
      unfold psIdx nargsort
      apply List.mem_append_right
      apply List.mem_filter.mpr
      refine ⟨List.mem_range.mpr (by rw [hklen]; exact hi), ?_⟩
      rw [hknone]
      rfl
    rcases List.getElem_of_mem hmem with ⟨p, hp, hpi⟩
    have hgetDi : (psIdx pdt f).getD p 0 = i := by
      rw [List.getD_eq_getElem?_getD, List.getElem?_eq_getElem hp, hpi]
      rfl
    have hdf := process_source_df_of_cols pdt f name hcols
    have hdfl : (process_source pdt f name).df.length = (psIdx pdt f).length := by
      rw [hdf]; simp
    have hplt : p < (process_source pdt f name).df.length := by rw [hdfl]; exact hp
    have hrow : (process_source pdt f name).df.getD p dfltProc = psRow pdt f name p := by
      rw [hdf, getD_map_lt (psRow pdt f name) _ p (by simpa using hp) dfltProc 0,
        getD_range_lt _ p hp]
    refine ⟨p, hplt, ?_, ?_, ?_, ?_, ?_, ?_, ?_⟩
    · rw [hrow]
      show (psKeys pdt f).getD ((psIdx pdt f).getD p 0) none = none
      rw [hgetDi, hknone]
    · rw [hrow]
      show (psSortedRow pdt f p).post_date = _
      unfold psSortedRow
      rw [hgetDi]
    · rw [hrow]
      show (psSortedRow pdt f p).post_time = _
      unfold psSortedRow
      rw [hgetDi]
    · rw [hrow]
      show (psSortedRow pdt f p).total_kw = _
      unfold psSortedRow
      rw [hgetDi]
    · rw [hrow]
      show (psSortedRow pdt f p).kwh_import = _
      unfold psSortedRow
      rw [hgetDi]
    · rw [List.getD_eq_getElem?_getD, List.getElem?_eq_getElem hplt]
      exact List.getElem_mem hplt
    · intro pre post
      apply List.mem_append_left
      apply List.mem_append_right
      rw [List.getD_eq_getElem?_getD, List.getElem?_eq_getElem hplt]
      exact List.getElem_mem hplt
  · intro w l s
    unfold chart_data
    rw [List.filter_comm, List.filter_filter]
    refine congrArg (resampleSum w) (congrArg _ ?_)
    symm
    rw [List.filter_eq_self]
    intro a ha
    have h := List.of_mem_filter ha
    simp only [Bool.and_eq_true] at h
    exact h.2

set_option maxRecDepth 40000 in
theorem claim9_null_retained_witness :
    (∃ p, p < (process_source pdtEx file_bad_row "Utility").df.length ∧
      ((process_source pdtEx file_bad_row "Utility").df.getD p dfltProc).post_datetime = none ∧
      ((process_source pdtEx file_bad_row "Utility").df.getD p dfltProc).post_date =
        (file_bad_row.rows.getD 1 dfltRaw).post_date ∧
      ((process_source pdtEx file_bad_row "Utility").df.getD p dfltProc).post_time =
        (file_bad_row.rows.getD 1 dfltRaw).post_time ∧
      ((process_source pdtEx file_bad_row "Utility").df.getD p dfltProc).total_kw =
        (file_bad_row.rows.getD 1 dfltRaw).total_kw ∧
      ((process_source pdtEx file_bad_row "Utility").df.getD p dfltProc).kwh_import =
        (file_bad_row.rows.getD 1 dfltRaw).kwh_import ∧
      ((process_source pdtEx file_bad_row "Utility").df.getD p dfltProc) ∈
        (process_source pdtEx file_bad_row "Utility").df ∧
      ∀ pre post : List ProcRow,
        ((process_source pdtEx file_bad_row "Utility").df.getD p dfltProc) ∈
          pre ++ (process_source pdtEx file_bad_row "Utility").df ++ post) ∧
    (∀ w (l : List EconRow) s,
      chart_data w l s = chart_data w (l.filter (fun r => r.post_datetime.isSome)) s) :=
  claim9_null_retained pdtEx file_bad_row "Utility"
    (of_decide_eq_true (by with_unfolding_all rfl)) 1
    (of_decide_eq_true (by with_unfolding_all rfl))
    (of_decide_eq_true (by with_unfolding_all rfl))

/-! ### C6: extrema selection with first-occurrence tiebreak -/

theorem idxmaxGo_spec (xs : List ℚ) : ∀ (bi i : ℕ) (bv : ℚ),
    (idxmaxGo xs bi bv i = bi ∧ ∀ k, k < xs.length → xs.getD k 0 ≤ bv) ∨
    (∃ k, k < xs.length ∧ idxmaxGo xs bi bv i = i + k ∧ bv < xs.getD k 0 ∧
      (∀ j, j < xs.length → xs.getD j 0 ≤ xs.getD k 0) ∧
      (∀ j, j < k → xs.getD j 0 < xs.getD k 0)) := by
  induction xs with
  | nil =>
    intro bi i bv
    left
    exact ⟨rfl, fun k hk => absurd hk (by simp)⟩
  | cons x t ih =>
    intro bi i bv
    by_cases hbx : bv < x
    · have hgo : idxmaxGo (x :: t) bi bv i = idxmaxGo t i x (i + 1) := by
        simp [idxmaxGo, hbx]
      rcases ih i (i + 1) x with ⟨h1, h2⟩ | ⟨k, hk, hres, hlt, hmax, hfirst⟩
      · right
        refine ⟨0, by simp, by rw [hgo, h1]; omega, by simpa using hbx, ?_, ?_⟩
        · intro j hj
          cases j with
          | zero => simp
          | succ j =>
            simp only [List.getD_cons_succ, List.getD_cons_zero]
            exact h2 j (by simpa using hj)
        · intro j hj; omega
      · right
        refine ⟨k + 1, by simpa using hk, by rw [hgo, hres]; omega, ?_, ?_, ?_⟩
        · simpa using lt_trans hbx hlt
        · intro j hj
          cases j with
          | zero => simpa using le_of_lt hlt
          | succ j => simpa using hmax j (by simpa using hj)
        · intro j hj
          cases j with
          | zero => simpa using hlt
          | succ j => simpa using hfirst j (by omega)
    · have hgo : idxmaxGo (x :: t) bi bv i = idxmaxGo t bi bv (i + 1) := by
        simp [idxmaxGo, hbx]
      have hxle : x ≤ bv := not_lt.mp hbx
      rcases ih bi (i + 1) bv with ⟨h1, h2⟩ | ⟨k, hk, hres, hlt, hmax, hfirst⟩
      · left
        refine ⟨by rw [hgo, h1], ?_⟩
        intro j hj
        cases j with
        | zero => simpa using hxle
        | succ j => simpa using h2 j (by simpa using hj)
      · right
        refine ⟨k + 1, by simpa using hk, by rw [hgo, hres]; omega, ?_, ?_, ?_⟩
        · simpa using hlt
        · intro j hj
          cases j with
          | zero => simpa using le_of_lt (lt_of_le_of_lt hxle hlt)
          | succ j => simpa using hmax j (by simpa using hj)
        · intro j hj
          cases j with
          | zero => simpa using lt_of_le_of_lt hxle hlt
          | succ j => simpa using hfirst j (by omega)

theorem idxmax_spec (l : List ℚ) (hne : l ≠ []) :
    idxmax l < l.length ∧
    (∀ j, j < l.length → l.getD j 0 ≤ l.getD (idxmax l) 0) ∧
    (∀ j, j < l.length → l.getD j 0 = l.getD (idxmax l) 0 → idxmax l ≤ j) := by
  match l, hne with
  | x :: t, _ =>
    have hidx : idxmax (x :: t) = idxmaxGo t 0 x 1 := rfl
    rcases idxmaxGo_spec t 0 1 x with ⟨h1, h2⟩ | ⟨k, hk, hres, hlt, hmax, hfirst⟩
    · rw [hidx, h1]
      refine ⟨by simp, ?_, ?_⟩
      · intro j hj
        cases j with
        | zero => simp
        | succ j => simpa using h2 j (by simpa using hj)
      · intro j _ _; omega
    · have hk1 : 1 + k = k + 1 := by omega
      rw [hidx, hres, hk1]
      refine ⟨by simpa using hk, ?_, ?_⟩
      · intro j hj
        cases j with
        | zero => simpa using le_of_lt hlt
        | succ j => simpa using hmax j (by simpa using hj)
      · intro j hj heq
        cases j with
        | zero =>
          rw [List.getD_cons_zero, List.getD_cons_succ] at heq
          exact absurd heq (ne_of_lt hlt)
        | succ j =>
          rw [List.getD_cons_succ, List.getD_cons_succ] at heq
          by_cases hjk : j < k
          · exact absurd heq (ne_of_lt (hfirst j hjk))
          · omega

theorem idxminGo_spec (xs : List ℚ) : ∀ (bi i : ℕ) (bv : ℚ),
    (idxminGo xs bi bv i = bi ∧ ∀ k, k < xs.length → bv ≤ xs.getD k 0) ∨
    (∃ k, k < xs.length ∧ idxminGo xs bi bv i = i + k ∧ xs.getD k 0 < bv ∧
      (∀ j, j < xs.length → xs.getD k 0 ≤ xs.getD j 0) ∧
      (∀ j, j < k → xs.getD k 0 < xs.getD j 0)) := by
  induction xs with
  | nil =>
    intro bi i bv
    left
    exact ⟨rfl, fun k hk => absurd hk (by simp)⟩
  | cons x t ih =>
    intro bi i bv
    by_cases hbx : x < bv
    · have hgo : idxminGo (x :: t) bi bv i = idxminGo t i x (i + 1) := by
        simp [idxminGo, hbx]
      rcases ih i (i + 1) x with ⟨h1, h2⟩ | ⟨k, hk, hres, hlt, hmin, hfirst⟩
      · right
        refine ⟨0, by simp, by rw [hgo, h1]; omega, by simpa using hbx, ?_, ?_⟩
        · intro j hj
          cases j with
          | zero => simp
          | succ j =>
            simp only [List.getD_cons_succ, List.getD_cons_zero]
            exact h2 j (by simpa using hj)
        · intro j hj; omega
      · right
        refine ⟨k + 1, by simpa using hk, by rw [hgo, hres]; omega, ?_, ?_, ?_⟩
        · simpa using lt_trans hlt hbx
        · intro j hj
          cases j with
          | zero => simpa using le_of_lt hlt
          | succ j => simpa using hmin j (by simpa using hj)
        · intro j hj
          cases j with
          | zero => simpa using hlt
          | succ j => simpa using hfirst j (by omega)
    · have hgo : idxminGo (x :: t) bi bv i = idxminGo t bi bv (i + 1) := by
        simp [idxminGo, hbx]
      have hxge : bv ≤ x := not_lt.mp hbx
      rcases ih bi (i + 1) bv with ⟨h1, h2⟩ | ⟨k, hk, hres, hlt, hmin, hfirst⟩
      · left
        refine ⟨by rw [hgo, h1], ?_⟩
        intro j hj
        cases j with
        | zero => simpa using hxge
        | succ j => simpa using h2 j (by simpa using hj)
      · right
        refine ⟨k + 1, by simpa using hk, by rw [hgo, hres]; omega, ?_, ?_, ?_⟩
        · simpa using hlt
        · intro j hj
          cases j with
          | zero => simpa using le_of_lt (lt_of_lt_of_le hlt hxge)
          | succ j => simpa using hmin j (by simpa using hj)
        · intro j hj
          cases j with
          | zero => simpa using lt_of_lt_of_le hlt hxge
          | succ j => simpa using hfirst j (by omega)

theorem idxmin_spec (l : List ℚ) (hne : l ≠ []) :
    idxmin l < l.length ∧
    (∀ j, j < l.length → l.getD (idxmin l) 0 ≤ l.getD j 0) ∧
    (∀ j, j < l.length → l.getD j 0 = l.getD (idxmin l) 0 → idxmin l ≤ j) := by
  match l, hne with
  | x :: t, _ =>
    have hidx : idxmin (x :: t) = idxminGo t 0 x 1 := rfl
    rcases idxminGo_spec t 0 1 x with ⟨h1, h2⟩ | ⟨k, hk, hres, hlt, hmin, hfirst⟩
    · rw [hidx, h1]
      refine ⟨by simp, ?_, ?_⟩
      · intro j hj
        cases j with
        | zero => simp
        | succ j => simpa using h2 j (by simpa using hj)
      · intro j _ _; omega
    · have hk1 : 1 + k = k + 1 := by omega
      rw [hidx, hres, hk1]
      refine ⟨by simpa using hk, ?_, ?_⟩
      · intro j hj
        cases j with
        | zero => simpa using le_of_lt hlt
        | succ j => simpa using hmin j (by simpa using hj)
      · intro j hj heq
        cases j with
        | zero =>
          rw [List.getD_cons_zero, List.getD_cons_succ] at heq
          exact absurd heq.symm (ne_of_lt hlt)
        | succ j =>
          rw [List.getD_cons_succ, List.getD_cons_succ] at heq
          by_cases hjk : j < k
          · exact absurd heq.symm (ne_of_lt (hfirst j hjk))
          · omega

theorem resampleSum_ne_nil (w : ℕ) (recs : List (ℕ × ℚ)) (hne : recs ≠ []) :
    resampleSum w recs ≠ [] := by
  unfold resampleSum
  rw [if_neg hne]
  apply List.ne_nil_of_length_pos
  simp

theorem resampleSum_getD (w : ℕ) (recs : List (ℕ × ℚ)) (hne : recs ≠ []) (j : ℕ)
    (hj : j < (resampleSum w recs).length) :
    (resampleSum w recs).getD j (0, 0) =
      (bucket_start w (tmin recs) + w * j,
       bucketSum w recs (bucket_start w (tmin recs) + w * j)) := by
  unfold resampleSum at hj ⊢
  rw [if_neg hne] at hj ⊢
  rw [getD_map_lt _ _ j (by simpa using hj) (0, 0) 0,
    getD_range_lt _ j (by simpa using hj)]

/-- C6: on every source's non-empty bucketed series, the marked maximum
bucket has the greatest `bucket_kwh` and the marked minimum bucket the
least, and any other bucket attaining the same extreme value has a
strictly later (chronologically) `bucket_start` than the marked one. -/
theorem claim6_extrema (w : ℕ) (recs : List (ℕ × ℚ)) (_hw : 0 < w) (hne : recs ≠ []) :
    (∀ j, j < (resampleSum w recs).length →
      ((resampleSum w recs).getD j (0, 0)).2 ≤ (max_row (resampleSum w recs)).2) ∧
    (∀ j, j < (resampleSum w recs).length →
      ((resampleSum w recs).getD j (0, 0)).2 = (max_row (resampleSum w recs)).2 →
        (max_row (resampleSum w recs)).1 ≤ ((resampleSum w recs).getD j (0, 0)).1) ∧
    (∀ j, j < (resampleSum w recs).length →
      (min_row (resampleSum w recs)).2 ≤ ((resampleSum w recs).getD j (0, 0)).2) ∧
    (∀ j, j < (resampleSum w recs).length →
      ((resampleSum w recs).getD j (0, 0)).2 = (min_row (resampleSum w recs)).2 →
        (min_row (resampleSum w recs)).1 ≤ ((resampleSum w recs).getD j (0, 0)).1) := by
  have hLne := resampleSum_ne_nil w recs hne
  have hvne : (resampleSum w recs).map (fun r => r.2) ≠ [] := by
    simpa [List.map_eq_nil_iff] using hLne
  have hvlen : ((resampleSum w recs).map (fun r => r.2)).length =
      (resampleSum w recs).length := by simp
  have hv : ∀ j, j < (resampleSum w recs).length →
      ((resampleSum w recs).map (fun r => r.2)).getD j 0 =
        ((resampleSum w recs).getD j (0, 0)).2 := fun j hj =>
    getD_map_lt (fun r => r.2) _ j hj 0 (0, 0)
  have htime : ∀ a b, a ≤ b → b < (resampleSum w recs).length →
      ((resampleSum w recs).getD a (0, 0)).1 ≤ ((resampleSum w recs).getD b (0, 0)).1 := by
    intro a b hab hb
    rw [resampleSum_getD w recs hne a (lt_of_le_of_lt hab hb),
      resampleSum_getD w recs hne b hb]
    exact Nat.add_le_add_left (Nat.mul_le_mul_left w hab) _
  obtain ⟨hmlt, hmle, hmtie⟩ := idxmax_spec _ hvne
  obtain ⟨hnlt, hnle, hntie⟩ := idxmin_spec _ hvne
  rw [hvlen] at hmlt hnlt
  refine ⟨?_, ?_, ?_, ?_⟩
  · intro j hj
    have := hmle j (by simpa [hvlen] using hj)
    rw [hv j hj, hv _ hmlt] at this
    exact this
  · intro j hj heq
    have htie := hmtie j (by simpa [hvlen] using hj)
    rw [hv j hj, hv _ hmlt] at htie
    exact htime _ j (htie heq) hj
  · intro j hj
    have := hnle j (by simpa [hvlen] using hj)
    rw [hv j hj, hv _ hnlt] at this
    exact this
  · intro j hj heq
    have htie := hntie j (by simpa [hvlen] using hj)
    rw [hv j hj, hv _ hnlt] at htie
    exact htime _ j (htie heq) hj

theorem claim6_extrema_witness :
    (∀ j, j < (resampleSum 5 [((0:ℕ), (1:ℚ)), (7, 1)]).length →
      ((resampleSum 5 [((0:ℕ), (1:ℚ)), (7, 1)]).getD j (0, 0)).2 ≤
        (max_row (resampleSum 5 [((0:ℕ), (1:ℚ)), (7, 1)])).2) ∧
    (∀ j, j < (resampleSum 5 [((0:ℕ), (1:ℚ)), (7, 1)]).length →
      ((resampleSum 5 [((0:ℕ), (1:ℚ)), (7, 1)]).getD j (0, 0)).2 =
          (max_row (resampleSum 5 [((0:ℕ), (1:ℚ)), (7, 1)])).2 →
        (max_row (resampleSum 5 [((0:ℕ), (1:ℚ)), (7, 1)])).1 ≤
          ((resampleSum 5 [((0:ℕ), (1:ℚ)), (7, 1)]).getD j (0, 0)).1) ∧
    (∀ j, j < (resampleSum 5 [((0:ℕ), (1:ℚ)), (7, 1)]).length →
      (min_row (resampleSum 5 [((0:ℕ), (1:ℚ)), (7, 1)])).2 ≤
        ((resampleSum 5 [((0:ℕ), (1:ℚ)), (7, 1)]).getD j (0, 0)).2) ∧
    (∀ j, j < (resampleSum 5 [((0:ℕ), (1:ℚ)), (7, 1)]).length →
      ((resampleSum 5 [((0:ℕ), (1:ℚ)), (7, 1)]).getD j (0, 0)).2 =
          (min_row (resampleSum 5 [((0:ℕ), (1:ℚ)), (7, 1)])).2 →
        (min_row (resampleSum 5 [((0:ℕ), (1:ℚ)), (7, 1)])).1 ≤
          ((resampleSum 5 [((0:ℕ), (1:ℚ)), (7, 1)]).getD j (0, 0)).1) :=
  claim6_extrema 5 [((0:ℕ), (1:ℚ)), (7, 1)] (by norm_num) (by simp)

/-! ### C8: bucketing is idempotent and order-independent -/

theorem foldl_perm {α β : Type} (f : β → α → β)
    (hf : ∀ b a₁ a₂, f (f b a₁) a₂ = f (f b a₂) a₁) {l₁ l₂ : List α} (h : l₁.Perm l₂) :
    ∀ b, l₁.foldl f b = l₂.foldl f b := by
  induction h with
  | nil => intro b; rfl
  | cons x _ ih => intro b; simp only [List.foldl_cons]; exact ih _
  | swap x y l => intro b; simp only [List.foldl_cons]; rw [hf]
  | trans _ _ ih₁ ih₂ => intro b; rw [ih₁ b, ih₂ b]

theorem minFold_perm {l₁ l₂ : List ℕ} (h : l₁.Perm l₂) : minFold l₁ = minFold l₂ := by
  unfold minFold
  refine foldl_perm _ ?_ h none
  intro b a₁ a₂
  cases b <;> simp <;> omega

theorem tmin_perm {recs recs' : List (ℕ × ℚ)} (h : recs.Perm recs') :
    tmin recs = tmin recs' := by
  unfold tmin
  rw [minFold_perm (h.map _)]

theorem tmax_perm {recs recs' : List (ℕ × ℚ)} (h : recs.Perm recs') :
    tmax recs = tmax recs' := by
  unfold tmax
  refine foldl_perm _ ?_ (h.map _) 0
  intro b a₁ a₂
  omega

theorem bucketSum_perm (w t : ℕ) {recs recs' : List (ℕ × ℚ)} (h : recs.Perm recs') :
    bucketSum w recs t = bucketSum w recs' t := by
  unfold bucketSum
  exact List.Perm.sum_eq (List.Perm.map _ (List.Perm.filter _ h))

theorem resampleSum_perm (w : ℕ) {recs recs' : List (ℕ × ℚ)} (h : recs.Perm recs') :
    resampleSum w recs = resampleSum w recs' := by
  by_cases hne : recs = []
  · subst hne
    rw [h.symm.eq_nil]
  · have hne' : recs' ≠ [] := by
      intro hc
      exact hne (List.Perm.eq_nil (hc ▸ h))
    unfold resampleSum
    rw [if_neg hne, if_neg hne', tmin_perm h, tmax_perm h]
    apply List.map_congr_left
    intro i _
    rw [bucketSum_perm _ _ h]

theorem foldl_minAcc_const (t : List ℕ) : ∀ m, (∀ x ∈ t, m ≤ x) →
    t.foldl (fun (o : Option ℕ) x => some (min (o.getD x) x)) (some m) = some m := by
  induction t with
  | nil => intro m _; rfl
  | cons x t ih =>
    intro m hm
    simp only [List.foldl_cons, Option.getD_some]
    rw [min_eq_left (hm x (List.mem_cons_self x t))]
    exact ih m (fun y hy => hm y (List.mem_cons_of_mem x hy))

theorem minFold_cons_min (a : ℕ) (t : List ℕ) (h : ∀ x ∈ t, a ≤ x) :
    minFold (a :: t) = some a := by
  unfold minFold
  simp only [List.foldl_cons, Option.getD_none, min_self]
  exact foldl_minAcc_const t a h

theorem foldl_max_range (s0 w m : ℕ) :
    ((List.range (m + 1)).map (fun i => s0 + w * i)).foldl max 0 = s0 + w * m := by
  induction m with
  | zero =>
    rw [show List.range 1 = [0] from rfl]
    simp
  | succ m ih =>
    rw [List.range_succ, List.map_append, List.foldl_append, ih]
    simp only [List.map_cons, List.map_nil, List.foldl_cons, List.foldl_nil]
    exact max_eq_right (Nat.add_le_add_left (Nat.mul_le_mul_left w (Nat.le_succ m)) s0)

theorem filter_range_beq (n i s0 w : ℕ) (hi : i < n) (hw : 0 < w) :
    (List.range n).filter (fun j => s0 + w * j == s0 + w * i) = [i] := by
  induction n with
  | zero => omega
  | succ n ih =>
    rw [List.range_succ, List.filter_append]
    by_cases hin : i = n
    · subst hin
      have h1 : (List.range i).filter (fun j => s0 + w * j == s0 + w * i) = [] := by
        rw [List.filter_eq_nil_iff]
        intro j hj
        have hji : j < i := List.mem_range.mp hj
        simp only [beq_iff_eq]
        intro hc
        have : w * j = w * i := by omega
        exact absurd (Nat.eq_of_mul_eq_mul_left hw this) (by omega)
      rw [h1]
      simp
    · have hi' : i < n := by omega
      rw [ih hi']
      have h2 : [n].filter (fun j => s0 + w * j == s0 + w * i) = [] := by
        rw [List.filter_eq_nil_iff]
        intro j hj
        have : j = n := by simpa using hj
        subst this
        simp only [beq_iff_eq]
        intro hc
        have : w * j = w * i := by omega
        exact absurd (Nat.eq_of_mul_eq_mul_left hw this) (by omega)
      rw [h2]
      simp

theorem resampleSum_idem (w : ℕ) (recs : List (ℕ × ℚ)) (hw : 0 < w) (hne : recs ≠ []) :
    resampleSum w (resampleSum w recs) = resampleSum w recs := by
  set s0 := bucket_start w (tmin recs) with hs0
  set s1 := bucket_start w (tmax recs) with hs1
  set n := (s1 - s0) / w + 1 with hn
  have hL : resampleSum w recs =
      (List.range n).map (fun i => (s0 + w * i, bucketSum w recs (s0 + w * i))) := by
    unfold resampleSum
    rw [if_neg hne]
  have hLne := resampleSum_ne_nil w recs hne
  obtain ⟨m, hm⟩ : ∃ m, n = m + 1 := ⟨(s1 - s0) / w, rfl⟩
  have hfix : ∀ i, bucket_start w (s0 + w * i) = s0 + w * i := by
    intro i
    have heq : s0 + w * i = w * (tmin recs / w + i) := by
      rw [hs0]; unfold bucket_start; ring
    rw [heq]
    unfold bucket_start
    rw [Nat.mul_div_cancel_left _ hw]
  have htimes : (resampleSum w recs).map (fun r => r.1) =
      (List.range n).map (fun i => s0 + w * i) := by
    rw [hL, List.map_map]
    rfl
  have htmin : tmin (resampleSum w recs) = s0 := by
    unfold tmin
    rw [htimes, hm, List.range_succ_eq_map, List.map_cons]
    rw [minFold_cons_min]
    · simp
    · intro x hx
      rcases List.mem_map.mp hx with ⟨y, _, rfl⟩
      exact Nat.add_le_add_left (Nat.mul_le_mul_left w (Nat.zero_le y)) s0
  have htmax : tmax (resampleSum w recs) = s0 + w * m := by
    unfold tmax
    rw [htimes, hm]
    exact foldl_max_range s0 w m
  have hsingle : ∀ i, i < n →
      bucketSum w (resampleSum w recs) (s0 + w * i) = bucketSum w recs (s0 + w * i) := by
    intro i hi
    unfold bucketSum
    conv_lhs => rw [hL]
    rw [List.filter_map]
    have hpred : (List.range n).filter
        ((fun r : ℕ × ℚ => bucket_start w r.1 == s0 + w * i) ∘
          (fun i => (s0 + w * i, bucketSum w recs (s0 + w * i)))) =
        (List.range n).filter (fun j => s0 + w * j == s0 + w * i) := by
      apply List.filter_congr
      intro j _
      simp only [Function.comp_apply, hfix]
    rw [hpred, filter_range_beq n i s0 w hi hw]
    simp
    rfl
  have hfix0 : bucket_start w s0 = s0 := by
    have h0 := hfix 0
    simpa using h0
  have hfixm : bucket_start w (s0 + w * m) = s0 + w * m := hfix m
  conv_lhs => rw [resampleSum]
  rw [if_neg hLne, htmin, htmax, hfix0, hfixm]
  simp only [Nat.add_sub_cancel_left]
  rw [Nat.mul_div_cancel_left m hw, ← hm]
  conv_rhs => rw [hL]
  apply List.map_congr_left
  intro i hi
  exact congrArg (fun x => (s0 + w * i, x)) (hsingle i (List.mem_range.mp hi))

/-- C8: aggregating records into fixed-width buckets is idempotent —
re-aggregating the already-bucketed per-bucket sums (each placed at its
`bucket_start`) over the same width reproduces the identical bucket
list — and the bucket sums are order-independent: any permutation of
the records yields the same bucket list. -/
theorem claim8_bucket_idem (w : ℕ) (recs recs' : List (ℕ × ℚ)) (hw : 0 < w)
    (hne : recs ≠ []) (hperm : recs.Perm recs') :
    resampleSum w (resampleSum w recs) = resampleSum w recs ∧
    resampleSum w recs' = resampleSum w recs :=
  ⟨resampleSum_idem w recs hw hne, (resampleSum_perm w hperm).symm⟩

theorem claim8_bucket_idem_witness :
    resampleSum 5 (resampleSum 5 [((7:ℕ), (1:ℚ)), (3, 2)]) =
      resampleSum 5 [((7:ℕ), (1:ℚ)), (3, 2)] ∧
    resampleSum 5 [((3:ℕ), (2:ℚ)), (7, 1)] = resampleSum 5 [((7:ℕ), (1:ℚ)), (3, 2)] :=
  claim8_bucket_idem 5 [((7:ℕ), (1:ℚ)), (3, 2)] [((3:ℕ), (2:ℚ)), (7, 1)]
    (by norm_num) (by simp) (List.Perm.swap _ _ _)

end Energy
